import Mathlib

/-!
Verification of the openclaw voice playback core against its
natural-language specification.

The definitions below are a shallow embedding of
`src/discord/voice/stream-playback.ts` (the PCM resample transform, the
buffered-bytes computation and the playback lifecycle of
`playDiscordPcmStream`) and, for the streaming delivery controller whose
implementation is exercised only through its tests in this repository, a
model written from the specification.

Bytes are modelled as natural numbers (a `Buffer` cell always holds a value
below 256; the 16-bit read applies an explicit `% 256` so the definitions
are total on all of `Nat`).  Machine integers are `Int` with the explicit
two's-complement conversions of `readInt16LE` / `writeInt16LE`.
-/

/-- `DISCORD_SAMPLE_RATE` from stream-playback.ts. -/
def DISCORD_SAMPLE_RATE : ℕ := 48000

/-- `DISCORD_CHANNELS` from stream-playback.ts. -/
def DISCORD_CHANNELS : ℕ := 2

/-- `PCM_SAMPLE_BYTES` from stream-playback.ts. -/
def PCM_SAMPLE_BYTES : ℕ := 2

/-- `DEFAULT_MAX_BUFFERED_MS` from stream-playback.ts. -/
def DEFAULT_MAX_BUFFERED_MS : ℕ := 6000

/-- `MIN_BUFFERED_MS` from stream-playback.ts. -/
def MIN_BUFFERED_MS : ℕ := 200

/-- `Buffer.readInt16LE` on the two bytes `b0` (low) and `b1` (high):
the unsigned little-endian value, reinterpreted as a signed 16-bit
integer. -/
def readInt16LE (b0 b1 : ℕ) : ℤ :=
  let u : ℕ := b0 % 256 + 256 * (b1 % 256)
  if u < 32768 then (u : ℤ) else (u : ℤ) - 65536

/-- `Buffer.writeInt16LE`: the two bytes (low first) written for the signed
16-bit value `v`, i.e. the little-endian digits of `v` modulo 2^16. -/
def writeInt16LE (v : ℤ) : List ℕ :=
  let u : ℕ := (v % 65536).toNat
  [u % 256, u / 256]

/-- `this.frameBytes = inputChannels * PCM_SAMPLE_BYTES` from the
`PcmTransform` constructor. -/
def frameBytes (inputChannels : ℕ) : ℕ := inputChannels * PCM_SAMPLE_BYTES

/-- `upsampleFactor` as computed inside `PcmTransform._transform`:
`this.inputSampleRate === DISCORD_SAMPLE_RATE ? 1 : 2`. -/
def upsampleFactor (inputSampleRate : ℕ) : ℕ :=
  if inputSampleRate = DISCORD_SAMPLE_RATE then 1 else 2

/-- One iteration of the frame loop of `PcmTransform._transform`, applied to
the bytes starting at the current frame base: read the left sample (and the
right sample at offset 2 when the input is stereo, else duplicate the left
one), then write the stereo pair `upsampleFactor` times. -/
def encodeFrame (inputChannels up : ℕ) (bs : List ℕ) : List ℕ :=
  let left : ℤ := readInt16LE (bs.getD 0 0) (bs.getD 1 0)
  let right : ℤ := if inputChannels = 2 then readInt16LE (bs.getD 2 0) (bs.getD 3 0) else left
  (List.replicate up (writeInt16LE left ++ writeInt16LE right)).flatten

/-- The frame loop of `PcmTransform._transform`: `n` is the number of input
frames still to encode; each step consumes `frameBytes` input bytes. -/
def encodeFrames (inputChannels up : ℕ) : ℕ → List ℕ → List ℕ
  | 0, _ => []
  | n + 1, bs =>
      encodeFrame inputChannels up bs ++
        encodeFrames inputChannels up n (bs.drop (frameBytes inputChannels))

/-- `PcmTransform._transform` as a pure step: given the carry buffer and the
incoming chunk it returns the new carry and the pushed output.  It follows
the source line by line: concatenate carry and chunk, keep the largest
`frameBytes`-aligned prefix, make the remainder the new carry, and encode
`usableLength / frameBytes` frames of the aligned prefix. -/
def transformStep (inputSampleRate inputChannels : ℕ) (carry chunk : List ℕ) :
    List ℕ × List ℕ :=
  let fullChunk := carry ++ chunk
  let usableLength := fullChunk.length - fullChunk.length % frameBytes inputChannels
  (fullChunk.drop usableLength,
    encodeFrames inputChannels (upsampleFactor inputSampleRate)
      (usableLength / frameBytes inputChannels) (fullChunk.take usableLength))

/-- Feeding a sequence of chunks through `PcmTransform._transform` starting
from the given carry: returns the final carry and the concatenation of all
pushed outputs. -/
def feedChunks (inputSampleRate inputChannels : ℕ) (carry : List ℕ) :
    List (List ℕ) → List ℕ × List ℕ
  | [] => (carry, [])
  | c :: cs =>
      let step := transformStep inputSampleRate inputChannels carry c
      let rest := feedChunks inputSampleRate inputChannels step.1 cs
      (rest.1, step.2 ++ rest.2)

/-- The optional parameters of `playDiscordPcmStream` that this development
models: `inputSampleRate`, `inputChannels` and `maxBufferedMs`. -/
structure PlayParams where
  inputSampleRate : Option ℕ
  inputChannels : Option ℕ
  maxBufferedMs : Option ℚ

/-- `const inputSampleRate = params.inputSampleRate ?? 24_000`. -/
def resolvedInputSampleRate (p : PlayParams) : ℕ := p.inputSampleRate.getD 24000

/-- `const inputChannels = params.inputChannels ?? 1`. -/
def resolvedInputChannels (p : PlayParams) : ℕ := p.inputChannels.getD 1

/-- The `PcmTransform` construction boundary.  The constructor body throws
`unsupported PCM sample rate` for a rate other than 24000 or 48000; the
channel count is constrained to `1 | 2` by the TypeScript signature
`inputChannels: 1 | 2`, which is checked where a transform is constructed,
so a channel count outside that union is likewise rejected before a
transform value exists. -/
def mkPcmTransform (inputSampleRate inputChannels : ℕ) : Except String (ℕ × ℕ) :=
  if inputChannels ≠ 1 ∧ inputChannels ≠ 2 then
    Except.error "invalid channel count for Discord stream playback"
  else if inputSampleRate ≠ 24000 ∧ inputSampleRate ≠ 48000 then
    Except.error "unsupported PCM sample rate for Discord stream playback"
  else Except.ok (inputSampleRate, inputChannels)

/-- `Buffer.readInt16LE(base)` with its bounds check: `none` models the
`ERR_OUT_OF_RANGE` exception when fewer than two bytes start at `base`. -/
def readInt16LEAt (bs : List ℕ) (base : ℕ) : Option ℤ :=
  match bs[base]?, bs[base + 1]? with
  | some b0, some b1 => some (readInt16LE b0 b1)
  | _, _ => none

/-- `encodeFrame` with every buffer read bounds-checked. -/
def encodeFrameChecked (ic up : ℕ) (bs : List ℕ) : Option (List ℕ) := do
  let left ← readInt16LEAt bs 0
  let right ← if ic = 2 then readInt16LEAt bs 2 else some left
  pure ((List.replicate up (writeInt16LE left ++ writeInt16LE right)).flatten)

/-- `encodeFrames` with every buffer read bounds-checked. -/
def encodeFramesChecked (ic up : ℕ) : ℕ → List ℕ → Option (List ℕ)
  | 0, _ => some []
  | n + 1, bs => do
      let head ← encodeFrameChecked ic up bs
      let tail ← encodeFramesChecked ic up n (bs.drop (frameBytes ic))
      pure (head ++ tail)

/-- `PcmTransform._transform` with every buffer read bounds-checked: `none`
models the runtime exception forwarded through `callback(err)`. -/
def transformStepChecked (rate ic : ℕ) (carry chunk : List ℕ) :
    Option (List ℕ × List ℕ) := do
  let fullChunk := carry ++ chunk
  let usableLength := fullChunk.length - fullChunk.length % frameBytes ic
  let out ← encodeFramesChecked ic (upsampleFactor rate)
      (usableLength / frameBytes ic) (fullChunk.take usableLength)
  pure (fullChunk.drop usableLength, out)

/-- `resolveMaxBufferedBytes` from stream-playback.ts, over exact rationals
(the JavaScript arithmetic involves only values far inside the
exactly-representable double range for realistic inputs; the formula is
translated operation by operation). -/
def resolveMaxBufferedBytes (maxBufferedMs : Option ℚ) : ℤ :=
  let boundedMs : ℚ :=
    max (MIN_BUFFERED_MS : ℚ) (maxBufferedMs.getD (DEFAULT_MAX_BUFFERED_MS : ℚ))
  let bytesPerSecond : ℚ :=
    (DISCORD_SAMPLE_RATE : ℚ) * (DISCORD_CHANNELS : ℚ) * (PCM_SAMPLE_BYTES : ℚ)
  max 32768 (Int.floor (boundedMs / 1000 * bytesPerSecond))

/-- The capacity formula exactly as claim C8 words it: 32768-byte floor,
`maxBufferedMs` clamped below at 200 ms, defaulting to 6000 ms, times
48000 Hz, 2 channels, 2 bytes per sample. -/
def maxBufferedBytesClaim (maxBufferedMs : Option ℚ) : ℤ :=
  let boundedMs : ℚ := max 200 (maxBufferedMs.getD 6000)
  max 32768 (Int.floor (boundedMs / 1000 * (48000 * 2 * 2)))

/-- External events that can reach one `playDiscordPcmStream` call while it
is in flight: the abort signal firing, a stream `error` event settling the
pipe promise with an error, and the output `finish` event settling it
without one.  The list of events is the chronological order in which the
environment delivers them; each event's handlers and the resumed
continuation run to completion before the next event (the JavaScript
run-to-completion model). -/
inductive PlaybackEv
  | abortFire
  | pipeErr
  | pipeFinish
deriving DecidableEq, Repr

/-- The mutable state of one `playDiscordPcmStream` invocation: the
`aborted` and `settled` local variables, the pipe promise
(`none` pending, `some true` settled with an error, `some false` settled
without), and the externally observable player calls and cleanup-body
executions. -/
structure PlaybackState where
  aborted : Bool
  settled : Bool
  pipeResult : Option Bool
  playCalled : Bool
  stopCalled : Bool
  cleanupRuns : ℕ
deriving DecidableEq, Repr

/-- How one invocation terminates: resolved with its `{aborted}` record,
rejected with a pipeline error, or never settled (the pipe promise was
still pending when the event stream ended). -/
inductive PlaybackOutcome
  | resolved (aborted : Bool)
  | rejected
  | pending
deriving DecidableEq, Repr

/-- `cleanup(stopPlayer)` from `playDiscordPcmStream`: the `settled` guard,
then `player.stop(true)` when `stopPlayer`, then unpipe/destroy of the
three stages.  Destroying `output` emits `close`, whose handler settles the
pipe promise (without error) when `aborted` is set. -/
def cleanupStep (stopPlayer : Bool) (s : PlaybackState) : PlaybackState :=
  if s.settled then s
  else
    { s with
      settled := true
      stopCalled := s.stopCalled || stopPlayer
      cleanupRuns := s.cleanupRuns + 1
      pipeResult :=
        if s.pipeResult.isNone && s.aborted then some false else s.pipeResult }

/-- Dispatch of one external event to the listeners the call has
registered: the abort listeners set `aborted` and run `cleanup(true)` (an
already-aborted signal cannot fire again); the pipe listeners settle the
pipe promise once (`settle` is guarded by its `done` flag). -/
def applyPlaybackEv : PlaybackEv → PlaybackState → PlaybackState
  | PlaybackEv.abortFire, s =>
      if s.aborted then s else cleanupStep true { s with aborted := true }
  | PlaybackEv.pipeErr, s =>
      if s.pipeResult.isNone then { s with pipeResult := some true } else s
  | PlaybackEv.pipeFinish, s =>
      if s.pipeResult.isNone then { s with pipeResult := some false } else s

/-- The awaits up to `await pipeDone`: the call consumes delivered events
until the pipe promise is settled, then resumes with the remaining events
undelivered. -/
def awaitPipeDone : List PlaybackEv → PlaybackState → PlaybackState × List PlaybackEv
  | [], s => (s, [])
  | e :: rest, s =>
      if s.pipeResult.isSome then (s, e :: rest)
      else awaitPipeDone rest (applyPlaybackEv e s)

/-- The continuation from `const {error} = await pipeDone` onward: throw
the settled error only when `aborted` is still false; when aborted, return
`{aborted: true}` immediately; otherwise deliver the remaining events
during the best-effort idle wait and return `{aborted}` read at that point.
The `finally` block runs `cleanup(false)` on every settling path. -/
def runPlaybackResume (res : PlaybackState × List PlaybackEv) :
    PlaybackState × PlaybackOutcome :=
  match res.1.pipeResult with
  | none => (res.1, PlaybackOutcome.pending)
  | some err =>
      if err && !res.1.aborted then
        (cleanupStep false res.1, PlaybackOutcome.rejected)
      else if res.1.aborted then
        (cleanupStep false res.1, PlaybackOutcome.resolved true)
      else
        let s3 := res.2.foldl (fun s e => applyPlaybackEv e s) res.1
        (cleanupStep false s3, PlaybackOutcome.resolved s3.aborted)

/-- The state right after `player.play(resource)` was invoked on the
not-initially-aborted path. -/
def playbackStart : PlaybackState :=
  { aborted := false, settled := false, pipeResult := none,
    playCalled := true, stopCalled := false, cleanupRuns := 0 }

/-- One full run of `playDiscordPcmStream` under a given event schedule.
If the signal is already aborted on entry the body after `if (!aborted)` is
skipped (`play` is never invoked) and the `finally` block runs
`cleanup(false)`; otherwise `player.play` is invoked, the call waits for
the pipe promise and resumes with `runPlaybackResume`. -/
def runPlayback (initiallyAborted : Bool) (evs : List PlaybackEv) :
    PlaybackState × PlaybackOutcome :=
  if initiallyAborted then
    (cleanupStep false
        { aborted := true, settled := false, pipeResult := none,
          playCalled := false, stopCalled := false, cleanupRuns := 0 },
      PlaybackOutcome.resolved true)
  else
    runPlaybackResume (awaitPipeDone evs playbackStart)

/-- The cleanup guard invariant: the cleanup body has run exactly once when
`settled` is set and never otherwise, and the player was stopped only after
an abort was observed. -/
def PlaybackInv (s : PlaybackState) : Prop :=
  s.cleanupRuns = (if s.settled = true then 1 else 0) ∧
    (s.stopCalled = true → s.aborted = true)

/-- States in which no abort has been observed and the player has not been
stopped. -/
def PlaybackClean (s : PlaybackState) : Prop :=
  s.aborted = false ∧ s.stopCalled = false

/-- The abort signal fires strictly before any pipeline `error` event is
delivered: the first abort-or-error event of the schedule is the abort. -/
def abortPrecedesPipeError : List PlaybackEv → Bool
  | [] => false
  | PlaybackEv.abortFire :: _ => true
  | PlaybackEv.pipeErr :: _ => false
  | PlaybackEv.pipeFinish :: rest => abortPrecedesPipeError rest

/-- Delivery mode tag recorded on a controller result: which path actually
produced the audio. -/
inductive Delivery
  | stream
  | buffered
deriving DecidableEq, Repr

/-- Outcome of the streaming race, when one is run: the provider's
streaming call won, or it lost — provider-reported failure, pipeline error
or timeout — carrying the failure reason. -/
inductive StreamAttemptOutcome
  | success
  | failed (reason : String)
deriving DecidableEq, Repr

/-- Modelled from the spec: the inputs of one `textToSpeechWithFallback`
call, whose implementation is not among this repository's sources (only
its tests are).  `streamEnabled` and `fallbackToBuffered` come from the
request's stream preferences, `supportsStreaming` is the static streaming
capability of the configured provider, `attempt` is the outcome of the
provider streaming call raced against the timeout when that race is run,
and `bufferedOk` is whether the delegated buffered synthesis succeeds when
it is performed. -/
structure FallbackRequest where
  streamEnabled : Bool
  supportsStreaming : Bool
  fallbackToBuffered : Bool
  attempt : StreamAttemptOutcome
  bufferedOk : Bool
deriving DecidableEq, Repr

/-- The tagged result of the streaming delivery controller: success flag,
the delivery mode actually used, the original streaming failure carried for
observability after a fallback, and the failure message of an unsuccessful
result. -/
structure DeliveryResult where
  success : Bool
  delivery : Delivery
  fallbackFromError : Option String
  errorMessage : Option String
deriving DecidableEq, Repr

/-- Modelled from the spec: `textToSpeechWithFallback` (the streaming
delivery controller), absent from the sources, following the decision
algorithm of spec section 4.4 constrained by the repository's own tests.
Streaming not requested: buffered delivery, no timer race.  Provider
without streaming support: no timer race either; with fallback enabled the
request is delivered buffered, and with fallback disabled the repository's
test expects `Failure` tagged `delivery=stream` with a
streaming-unsupported error.  Otherwise the streaming race runs: on
success a stream-tagged success, on timeout or failure either a buffered
fallback carrying `fallbackFromError`, or a stream-tagged `Failure` when
fallback is disabled.  The second component counts the timer races
attempted. -/
def textToSpeechWithFallback (req : FallbackRequest) : DeliveryResult × ℕ :=
  if !req.streamEnabled then
    ({ success := req.bufferedOk, delivery := Delivery.buffered,
       fallbackFromError := none,
       errorMessage := if req.bufferedOk then none else some "tts failed" }, 0)
  else if !req.supportsStreaming then
    if req.fallbackToBuffered then
      ({ success := req.bufferedOk, delivery := Delivery.buffered,
         fallbackFromError := some "streaming unsupported for provider",
         errorMessage := if req.bufferedOk then none else some "tts failed" }, 0)
    else
      ({ success := false, delivery := Delivery.stream,
         fallbackFromError := none,
         errorMessage := some "streaming unsupported for provider" }, 0)
  else
    match req.attempt with
    | StreamAttemptOutcome.success =>
        ({ success := true, delivery := Delivery.stream,
           fallbackFromError := none, errorMessage := none }, 1)
    | StreamAttemptOutcome.failed reason =>
        if req.fallbackToBuffered then
          ({ success := req.bufferedOk, delivery := Delivery.buffered,
             fallbackFromError := some reason,
             errorMessage := if req.bufferedOk then none else some "tts failed" }, 1)
        else
          ({ success := false, delivery := Delivery.stream,
             fallbackFromError := none, errorMessage := some reason }, 1)

theorem writeInt16LE_readInt16LE (b0 b1 : ℕ) (h0 : b0 < 256) (h1 : b1 < 256) :
    writeInt16LE (readInt16LE b0 b1) = [b0, b1] := by
  unfold readInt16LE writeInt16LE
  have hm0 : b0 % 256 = b0 := Nat.mod_eq_of_lt h0
  have hm1 : b1 % 256 = b1 := Nat.mod_eq_of_lt h1
  rw [hm0, hm1]
  set u : ℕ := b0 + 256 * b1 with hu
  have hub : u < 65536 := by omega
  by_cases h : u < 32768
  · simp only [if_pos h]
    have : ((u : ℤ) % 65536) = (u : ℤ) := by omega
    rw [this]
    simp only [Int.toNat_natCast]
    have hb0 : u % 256 = b0 := by omega
    have hb1 : u / 256 = b1 := by omega
    rw [hb0, hb1]
  · simp only [if_neg h]
    have : ((u : ℤ) - 65536) % 65536 = (u : ℤ) := by omega
    rw [this]
    simp only [Int.toNat_natCast]
    have hb0 : u % 256 = b0 := by omega
    have hb1 : u / 256 = b1 := by omega
    rw [hb0, hb1]

theorem encodeFrame_append (ic up : ℕ) (A B : List ℕ) (hic : 0 < ic)
    (hA : frameBytes ic ≤ A.length) :
    encodeFrame ic up (A ++ B) = encodeFrame ic up A := by
  have hfb : frameBytes ic = ic * 2 := by simp [frameBytes, PCM_SAMPLE_BYTES]
  have h2 : 2 ≤ A.length := by omega
  by_cases h : ic = 2
  · subst h
    have h4 : 4 ≤ A.length := by omega
    simp only [encodeFrame, if_pos rfl]
    rw [List.getD_append A B 0 0 (by omega), List.getD_append A B 0 1 (by omega),
      List.getD_append A B 0 2 (by omega), List.getD_append A B 0 3 (by omega)]
  · simp only [encodeFrame, if_neg h]
    rw [List.getD_append A B 0 0 (by omega), List.getD_append A B 0 1 (by omega)]

theorem encodeFrames_zero (ic up : ℕ) (bs : List ℕ) :
    encodeFrames ic up 0 bs = [] := rfl

theorem encodeFrames_succ (ic up n : ℕ) (bs : List ℕ) :
    encodeFrames ic up (n + 1) bs =
      encodeFrame ic up bs ++ encodeFrames ic up n (bs.drop (frameBytes ic)) := rfl

theorem encodeFrames_append (ic up : ℕ) (hic : 0 < ic) (m : ℕ) :
    ∀ (n : ℕ) (A B : List ℕ), A.length = m * frameBytes ic →
      encodeFrames ic up (m + n) (A ++ B) =
        encodeFrames ic up m A ++ encodeFrames ic up n B := by
  induction m with
  | zero =>
      intro n A B hA
      have hA0 : A = [] := List.eq_nil_of_length_eq_zero (by simpa using hA)
      subst hA0
      simp [encodeFrames_zero]
  | succ m ih =>
      intro n A B hA
      have hfb : 0 < frameBytes ic := by
        have : frameBytes ic = ic * 2 := by simp [frameBytes, PCM_SAMPLE_BYTES]
        omega
      have hdist : (m + 1) * frameBytes ic = m * frameBytes ic + frameBytes ic := by ring
      rw [hdist] at hA
      have hle : frameBytes ic ≤ A.length := by omega
      have hdroplen : (A.drop (frameBytes ic)).length = m * frameBytes ic := by
        rw [List.length_drop]; omega
      rw [Nat.add_right_comm m 1 n, encodeFrames_succ,
        List.drop_append_of_le_length hle,
        encodeFrame_append ic up A B hic hle,
        ih n (A.drop (frameBytes ic)) B hdroplen,
        encodeFrames_succ, List.append_assoc]

theorem transformStep_unfold (rate ic : ℕ) (carry chunk : List ℕ) :
    transformStep rate ic carry (chunk) =
      ((carry ++ chunk).drop
          ((carry ++ chunk).length - (carry ++ chunk).length % frameBytes ic),
        encodeFrames ic (upsampleFactor rate)
          (((carry ++ chunk).length - (carry ++ chunk).length % frameBytes ic) /
            frameBytes ic)
          ((carry ++ chunk).take
            ((carry ++ chunk).length - (carry ++ chunk).length % frameBytes ic))) := rfl

theorem transformStep_append (rate ic : ℕ) (hic : 0 < ic) (carry x y : List ℕ) :
    transformStep rate ic carry (x ++ y) =
      ((transformStep rate ic (transformStep rate ic carry x).1 y).1,
        (transformStep rate ic carry x).2 ++
          (transformStep rate ic (transformStep rate ic carry x).1 y).2) := by
  have hfb : 0 < frameBytes ic := by
    have : frameBytes ic = ic * 2 := by simp [frameBytes, PCM_SAMPLE_BYTES]
    omega
  rw [transformStep_unfold rate ic carry x]
  rw [transformStep_unfold rate ic carry (x ++ y)]
  rw [transformStep_unfold rate ic _ y]
  rw [← List.append_assoc carry x y]
  set fb := frameBytes ic with hfbdef
  set A := carry ++ x with hAdef
  set n1 := A.length with hn1
  set u1 := n1 - n1 % fb with hu1def
  set F2 := A.drop u1 ++ y with hF2
  set n2 := F2.length with hn2
  set u2 := n2 - n2 % fb with hu2def
  have hu1le : u1 ≤ n1 := Nat.sub_le _ _
  have hu1mul : fb * (n1 / fb) = u1 :=
    Nat.sub_eq_of_eq_add (Nat.div_add_mod n1 fb).symm ▸ rfl
  have hkey : A ++ y = A.take u1 ++ F2 := by
    rw [hF2, ← List.append_assoc, List.take_append_drop]
  have hlen_take : (A.take u1).length = u1 := by
    rw [List.length_take]; omega
  have hlenTot : (A ++ y).length = u1 + n2 := by
    rw [hkey, List.length_append, hlen_take]
  have hmod : (A ++ y).length % fb = n2 % fb := by
    rw [hlenTot, ← hu1mul, Nat.mul_add_mod]
  have hmod_le : n2 % fb ≤ n2 := Nat.mod_le _ _
  have hutot : (A ++ y).length - (A ++ y).length % fb = u1 + u2 := by
    rw [hmod, hlenTot, hu2def, Nat.add_sub_assoc hmod_le]
  rw [hutot, hkey]
  have htake : (A.take u1 ++ F2).take (u1 + u2) = A.take u1 ++ F2.take u2 := by
    have h := @List.take_append ℕ (A.take u1) F2 u2
    rw [hlen_take] at h
    exact h
  have hdrop : (A.take u1 ++ F2).drop (u1 + u2) = F2.drop u2 := by
    have h := @List.drop_append ℕ (A.take u1) F2 u2
    rw [hlen_take] at h
    exact h
  rw [htake, hdrop]
  have hdvd1 : u1 / fb * fb = u1 := by
    rw [← hu1mul, Nat.mul_div_cancel_left _ hfb, Nat.mul_comm]
  have hdiv : (u1 + u2) / fb = u1 / fb + u2 / fb := by
    conv_lhs => rw [← hdvd1]
    rw [Nat.mul_comm (u1 / fb) fb, Nat.mul_add_div hfb]
  rw [hdiv]
  have hsplit := encodeFrames_append ic (upsampleFactor rate) hic (u1 / fb)
    (u2 / fb) (A.take u1) (F2.take u2) (by rw [hlen_take, hdvd1])
  rw [hsplit]

theorem feedChunks_nil (rate ic : ℕ) (carry : List ℕ) :
    feedChunks rate ic carry [] = (carry, []) := rfl

theorem feedChunks_cons (rate ic : ℕ) (carry c : List ℕ) (cs : List (List ℕ)) :
    feedChunks rate ic carry (c :: cs) =
      ((feedChunks rate ic (transformStep rate ic carry c).1 cs).1,
        (transformStep rate ic carry c).2 ++
          (feedChunks rate ic (transformStep rate ic carry c).1 cs).2) := rfl

theorem transformStep_carry_length (rate ic : ℕ) (carry chunk : List ℕ) :
    (transformStep rate ic carry chunk).1.length =
      (carry ++ chunk).length % frameBytes ic := by
  rw [transformStep_unfold]
  simp only [List.length_drop]
  have h := Nat.mod_le (carry ++ chunk).length (frameBytes ic)
  omega

theorem feedChunks_eq_single (rate ic : ℕ) (hic : 0 < ic) :
    ∀ (chunks : List (List ℕ)) (carry : List ℕ),
      carry.length < frameBytes ic →
      feedChunks rate ic carry chunks =
        transformStep rate ic carry chunks.flatten := by
  intro chunks
  induction chunks with
  | nil =>
      intro carry h
      rw [feedChunks_nil, List.flatten_nil, transformStep_unfold]
      rw [List.append_nil, Nat.mod_eq_of_lt h, Nat.sub_self]
      simp [encodeFrames_zero]
  | cons c cs ih =>
      intro carry h
      have hfb : 0 < frameBytes ic := by
        have : frameBytes ic = ic * 2 := by simp [frameBytes, PCM_SAMPLE_BYTES]
        omega
      have hcl : (transformStep rate ic carry c).1.length < frameBytes ic := by
        rw [transformStep_carry_length]
        exact Nat.mod_lt _ hfb
      rw [feedChunks_cons, ih _ hcl, List.flatten_cons,
        transformStep_append rate ic hic carry c cs.flatten]

theorem length_writeInt16LE (v : ℤ) : (writeInt16LE v).length = 2 := rfl

theorem length_encodeFrame (ic up : ℕ) (bs : List ℕ) :
    (encodeFrame ic up bs).length = up * 4 := by
  simp [encodeFrame, List.length_flatten, List.map_replicate, List.sum_replicate,
    smul_eq_mul, length_writeInt16LE]

theorem length_encodeFrames (ic up : ℕ) :
    ∀ (n : ℕ) (bs : List ℕ), (encodeFrames ic up n bs).length = n * (up * 4) := by
  intro n
  induction n with
  | zero => intro bs; rw [encodeFrames_zero]; simp
  | succ n ih =>
      intro bs
      rw [encodeFrames_succ, List.length_append, length_encodeFrame, ih]
      ring

/-- C1: for every input byte sequence and every way of splitting it into
chunks, feeding the chunks to `PcmTransform` in order and concatenating all
emitted outputs yields exactly the same bytes as feeding the whole sequence
as a single chunk (split-invariance).  The channel count is 1 or 2, as in
the constructor's type. -/
theorem pcmTransform_split_invariance (rate ic : ℕ) (hic : ic = 1 ∨ ic = 2)
    (chunks : List (List ℕ)) :
    (feedChunks rate ic [] chunks).2 =
      (feedChunks rate ic [] [chunks.flatten]).2 := by
  have hic0 : 0 < ic := by omega
  have hfb : 0 < frameBytes ic := by
    have : frameBytes ic = ic * 2 := by simp [frameBytes, PCM_SAMPLE_BYTES]
    omega
  have hnil : ([] : List ℕ).length < frameBytes ic := by simpa using hfb
  rw [feedChunks_eq_single rate ic hic0 chunks [] hnil,
    feedChunks_eq_single rate ic hic0 [chunks.flatten] [] hnil,
    List.flatten_singleton]

/-- Witness for C1 at a concrete split. -/
theorem pcmTransform_split_invariance_witness :
    (feedChunks 24000 1 [] [[1, 0, 2], [0, 3, 0]]).2 =
      (feedChunks 24000 1 [] [[[1, 0, 2], [0, 3, 0]].flatten]).2 :=
  pcmTransform_split_invariance 24000 1 (Or.inl rfl) [[1, 0, 2], [0, 3, 0]]

/-- C2: whenever the concatenated input length is an exact multiple of
`frameBytes`, the total output length is `inputFrames * upsampleFactor * 4`
(4 bytes per output stereo frame) and the final carry is empty. -/
theorem pcmTransform_total_length (rate ic : ℕ) (hic : ic = 1 ∨ ic = 2)
    (hrate : rate = 24000 ∨ rate = 48000) (chunks : List (List ℕ))
    (hlen : chunks.flatten.length % frameBytes ic = 0) :
    (feedChunks rate ic [] chunks).1 = [] ∧
      (feedChunks rate ic [] chunks).2.length =
        chunks.flatten.length / frameBytes ic * (DISCORD_SAMPLE_RATE / rate) * 4 := by
  have hic0 : 0 < ic := by omega
  have hfb : 0 < frameBytes ic := by
    have : frameBytes ic = ic * 2 := by simp [frameBytes, PCM_SAMPLE_BYTES]
    omega
  have hnil : ([] : List ℕ).length < frameBytes ic := by simpa using hfb
  rw [feedChunks_eq_single rate ic hic0 chunks [] hnil, transformStep_unfold]
  rw [List.nil_append, hlen, Nat.sub_zero]
  constructor
  · exact List.drop_length _
  · rw [List.take_length, length_encodeFrames]
    rcases hrate with h | h <;>
      (subst h; simp [upsampleFactor, DISCORD_SAMPLE_RATE]; try ring)

/-- Witness for C2 at a concrete frame-aligned chunk sequence. -/
theorem pcmTransform_total_length_witness :
    (feedChunks 24000 1 [] [[1, 0], [2, 0, 3, 0]]).1 = [] ∧
      (feedChunks 24000 1 [] [[1, 0], [2, 0, 3, 0]]).2.length =
        [[1, 0], [2, 0, 3, 0]].flatten.length / frameBytes 1 *
          (DISCORD_SAMPLE_RATE / 24000) * 4 :=
  pcmTransform_total_length 24000 1 (Or.inl rfl) (Or.inl rfl)
    [[1, 0], [2, 0, 3, 0]] (by decide)

/-- C9 counterexample: an 8-byte mono chunk holds 4 input frames (2 bytes
per 16-bit mono frame), so a 24 kHz mono transform emits 32 output bytes
for it, not the 16 bytes (4 stereo frames) the claim states. -/
theorem pcmTransform_8byte_example_counterexample :
    (transformStep 24000 1 [] [1, 0, 2, 0, 3, 0, 4, 0]).2.length = 32 ∧
      (transformStep 24000 1 [] [1, 0, 2, 0, 3, 0, 4, 0]).2.length ≠ 16 := by
  constructor <;> decide

/-- C9 amended: for a mono 24 kHz transform, a single 8-byte input chunk
(4 mono frames) produces exactly 32 bytes of output representing 8 stereo
frames; each input sample yields two consecutive stereo frames whose left
and right channels both equal that sample. -/
theorem pcmTransform_8byte_example (b0 b1 b2 b3 b4 b5 b6 b7 : ℕ)
    (h0 : b0 < 256) (h1 : b1 < 256) (h2 : b2 < 256) (h3 : b3 < 256)
    (h4 : b4 < 256) (h5 : b5 < 256) (h6 : b6 < 256) (h7 : b7 < 256) :
    transformStep 24000 1 [] [b0, b1, b2, b3, b4, b5, b6, b7] =
      ([], [b0, b1, b0, b1, b0, b1, b0, b1,
            b2, b3, b2, b3, b2, b3, b2, b3,
            b4, b5, b4, b5, b4, b5, b4, b5,
            b6, b7, b6, b7, b6, b7, b6, b7]) := by
  rw [transformStep_unfold]
  simp [frameBytes, PCM_SAMPLE_BYTES, upsampleFactor, DISCORD_SAMPLE_RATE,
    encodeFrames, encodeFrame,
    writeInt16LE_readInt16LE b0 b1 h0 h1, writeInt16LE_readInt16LE b2 b3 h2 h3,
    writeInt16LE_readInt16LE b4 b5 h4 h5, writeInt16LE_readInt16LE b6 b7 h6 h7]

/-- Witness for the amended C9 statement at concrete bytes. -/
theorem pcmTransform_8byte_example_witness :
    transformStep 24000 1 [] [1, 0, 2, 0, 3, 0, 4, 0] =
      ([], [1, 0, 1, 0, 1, 0, 1, 0, 2, 0, 2, 0, 2, 0, 2, 0,
            3, 0, 3, 0, 3, 0, 3, 0, 4, 0, 4, 0, 4, 0, 4, 0]) :=
  pcmTransform_8byte_example 1 0 2 0 3 0 4 0
    (by norm_num) (by norm_num) (by norm_num) (by norm_num)
    (by norm_num) (by norm_num) (by norm_num) (by norm_num)

/-- C10: when `inputSampleRate` / `inputChannels` are omitted the input is
treated as 24 kHz mono, the upsample factor is 2, and each input sample is
duplicated into two stereo output frames with equal channels. -/
theorem playDiscordPcmStream_default_format (p : PlayParams)
    (hr : p.inputSampleRate = none) (hc : p.inputChannels = none) :
    resolvedInputSampleRate p = 24000 ∧ resolvedInputChannels p = 1 ∧
      upsampleFactor (resolvedInputSampleRate p) = 2 ∧
      ∀ b0 b1 : ℕ, b0 < 256 → b1 < 256 →
        transformStep (resolvedInputSampleRate p) (resolvedInputChannels p)
            [] [b0, b1] =
          ([], [b0, b1, b0, b1, b0, b1, b0, b1]) := by
  have h1 : resolvedInputSampleRate p = 24000 := by
    simp [resolvedInputSampleRate, hr]
  have h2 : resolvedInputChannels p = 1 := by
    simp [resolvedInputChannels, hc]
  refine ⟨h1, h2, ?_, ?_⟩
  · rw [h1]; decide
  · intro b0 b1 hb0 hb1
    rw [h1, h2, transformStep_unfold]
    simp [frameBytes, PCM_SAMPLE_BYTES, upsampleFactor, DISCORD_SAMPLE_RATE,
      encodeFrames, encodeFrame, writeInt16LE_readInt16LE b0 b1 hb0 hb1]

/-- Witness for C10 with all optional parameters omitted. -/
theorem playDiscordPcmStream_default_format_witness :
    resolvedInputSampleRate ⟨none, none, none⟩ = 24000 ∧
      resolvedInputChannels ⟨none, none, none⟩ = 1 ∧
      upsampleFactor 24000 = 2 ∧
      transformStep 24000 1 [] [7, 1] = ([], [7, 1, 7, 1, 7, 1, 7, 1]) := by
  obtain ⟨ha, hb, hc, hd⟩ :=
    playDiscordPcmStream_default_format ⟨none, none, none⟩ rfl rfl
  exact ⟨ha, hb, hc, hd 7 1 (by norm_num) (by norm_num)⟩

theorem readInt16LEAt_isSome (bs : List ℕ) (base : ℕ) (h : base + 1 < bs.length) :
    ∃ v, readInt16LEAt bs base = some v := by
  have h0 : base < bs.length := by omega
  unfold readInt16LEAt
  rw [List.getElem?_eq_getElem h0, List.getElem?_eq_getElem h]
  exact ⟨_, rfl⟩

theorem encodeFrameChecked_isSome (ic up : ℕ) (hic : ic = 1 ∨ ic = 2)
    (bs : List ℕ) (h : frameBytes ic ≤ bs.length) :
    ∃ l, encodeFrameChecked ic up bs = some l := by
  have hfb : frameBytes ic = ic * 2 := by simp [frameBytes, PCM_SAMPLE_BYTES]
  rcases hic with h1 | h1 <;> subst h1
  · obtain ⟨v, hv⟩ := readInt16LEAt_isSome bs 0 (by omega)
    exact ⟨(List.replicate up (writeInt16LE v ++ writeInt16LE v)).flatten,
      by simp [encodeFrameChecked, hv]⟩
  · obtain ⟨v, hv⟩ := readInt16LEAt_isSome bs 0 (by omega)
    obtain ⟨w, hw⟩ := readInt16LEAt_isSome bs 2 (by omega)
    exact ⟨(List.replicate up (writeInt16LE v ++ writeInt16LE w)).flatten,
      by simp [encodeFrameChecked, hv, hw]⟩

theorem encodeFramesChecked_isSome (ic up : ℕ) (hic : ic = 1 ∨ ic = 2) :
    ∀ (n : ℕ) (bs : List ℕ), n * frameBytes ic ≤ bs.length →
      ∃ l, encodeFramesChecked ic up n bs = some l := by
  intro n
  induction n with
  | zero => intro bs _; exact ⟨[], rfl⟩
  | succ n ih =>
      intro bs h
      have hdist : (n + 1) * frameBytes ic = n * frameBytes ic + frameBytes ic := by
        ring
      rw [hdist] at h
      have hle : frameBytes ic ≤ bs.length := le_trans (Nat.le_add_left _ _) h
      obtain ⟨hd, hhd⟩ := encodeFrameChecked_isSome ic up hic bs hle
      have hdl : n * frameBytes ic ≤ (bs.drop (frameBytes ic)).length := by
        rw [List.length_drop]
        exact Nat.le_sub_of_add_le h
      obtain ⟨tl, htl⟩ := ih _ hdl
      exact ⟨hd ++ tl, by simp [encodeFramesChecked, hhd, htl]⟩

theorem transformStepChecked_unfold (rate ic : ℕ) (carry chunk : List ℕ) :
    transformStepChecked rate ic carry chunk =
      (encodeFramesChecked ic (upsampleFactor rate)
          (((carry ++ chunk).length - (carry ++ chunk).length % frameBytes ic) /
            frameBytes ic)
          ((carry ++ chunk).take
            ((carry ++ chunk).length -
              (carry ++ chunk).length % frameBytes ic))).bind
        (fun out =>
          some ((carry ++ chunk).drop
              ((carry ++ chunk).length -
                (carry ++ chunk).length % frameBytes ic),
            out)) := rfl

theorem transformStepChecked_isSome (rate ic : ℕ) (hic : ic = 1 ∨ ic = 2)
    (carry chunk : List ℕ) :
    ∃ r, transformStepChecked rate ic carry chunk = some r := by
  have husable :
      (((carry ++ chunk).length - (carry ++ chunk).length % frameBytes ic) /
          frameBytes ic) * frameBytes ic ≤
        ((carry ++ chunk).take
          ((carry ++ chunk).length -
            (carry ++ chunk).length % frameBytes ic)).length := by
    rw [List.length_take]
    refine le_trans (Nat.div_mul_le_self _ _) ?_
    exact le_min (le_refl _) (Nat.sub_le _ _)
  obtain ⟨out, hout⟩ :=
    encodeFramesChecked_isSome ic (upsampleFactor rate) hic _ _ husable
  refine ⟨((carry ++ chunk).drop
      ((carry ++ chunk).length - (carry ++ chunk).length % frameBytes ic),
    out), ?_⟩
  rw [transformStepChecked_unfold, hout]
  rfl

/-- C7: construction of the PCM transform succeeds exactly for a supported
input sample rate (24000 or 48000) and a channel count of 1 or 2 — anything
else is a construction-time configuration error — and a successfully
constructed transform never fails while processing a chunk: every
bounds-checked `_transform` step on arbitrary carry and chunk returns a
value. -/
theorem pcmTransform_construction_errors (rate ic : ℕ) :
    ((∃ cfg, mkPcmTransform rate ic = Except.ok cfg) ↔
      ((rate = 24000 ∨ rate = 48000) ∧ (ic = 1 ∨ ic = 2))) ∧
      (∀ cfg, mkPcmTransform rate ic = Except.ok cfg →
        ∀ carry chunk : List ℕ,
          ∃ r, transformStepChecked rate ic carry chunk = some r) := by
  have hchar : ∀ cfg, mkPcmTransform rate ic = Except.ok cfg →
      ((rate = 24000 ∨ rate = 48000) ∧ (ic = 1 ∨ ic = 2)) := by
    intro cfg hcfg
    by_cases hch : ic ≠ 1 ∧ ic ≠ 2
    · rw [mkPcmTransform, if_pos hch] at hcfg
      exact absurd hcfg (by simp)
    · by_cases hsr : rate ≠ 24000 ∧ rate ≠ 48000
      · rw [mkPcmTransform, if_neg hch, if_pos hsr] at hcfg
        exact absurd hcfg (by simp)
      · exact ⟨by tauto, by tauto⟩
  constructor
  · constructor
    · rintro ⟨cfg, hcfg⟩
      exact hchar cfg hcfg
    · rintro ⟨hr, hc⟩
      have h1 : ¬(ic ≠ 1 ∧ ic ≠ 2) := by tauto
      have h2 : ¬(rate ≠ 24000 ∧ rate ≠ 48000) := by tauto
      exact ⟨(rate, ic), by rw [mkPcmTransform, if_neg h1, if_neg h2]⟩
  · intro cfg hcfg carry chunk
    exact transformStepChecked_isSome rate ic (hchar cfg hcfg).2 carry chunk

/-- Witness for C7: the 24 kHz mono configuration constructs successfully
and its checked step succeeds on a concrete non-aligned chunk. -/
theorem pcmTransform_construction_errors_witness :
    (transformStepChecked 24000 1 [] [1, 0, 2]).isSome = true := by
  obtain ⟨-, h⟩ := pcmTransform_construction_errors 24000 1
  obtain ⟨r, hr⟩ := h (24000, 1) (by rfl) [] [1, 0, 2]
  rw [hr]
  rfl

/-- C8: for every `maxBufferedMs` argument (including unspecified) the
playback buffer capacity computed by `resolveMaxBufferedBytes` equals the
claimed formula. -/
theorem resolveMaxBufferedBytes_matches_claim (ms : Option ℚ) :
    resolveMaxBufferedBytes ms = maxBufferedBytesClaim ms := by
  unfold resolveMaxBufferedBytes maxBufferedBytesClaim
  norm_num [MIN_BUFFERED_MS, DEFAULT_MAX_BUFFERED_MS, DISCORD_SAMPLE_RATE,
    DISCORD_CHANNELS, PCM_SAMPLE_BYTES]

theorem awaitPipeDone_of_isSome (evs : List PlaybackEv) (s : PlaybackState)
    (h : s.pipeResult.isSome = true) : awaitPipeDone evs s = (s, evs) := by
  cases evs with
  | nil => rfl
  | cons e rest => simp [awaitPipeDone, h]

theorem applyPlaybackEv_abortFire (s : PlaybackState) :
    applyPlaybackEv PlaybackEv.abortFire s =
      if s.aborted then s else cleanupStep true { s with aborted := true } := rfl

theorem applyPlaybackEv_pipeErr (s : PlaybackState) :
    applyPlaybackEv PlaybackEv.pipeErr s =
      if s.pipeResult.isNone then { s with pipeResult := some true } else s := rfl

theorem applyPlaybackEv_pipeFinish (s : PlaybackState) :
    applyPlaybackEv PlaybackEv.pipeFinish s =
      if s.pipeResult.isNone then { s with pipeResult := some false } else s := rfl

theorem applyPlaybackEv_keeps (e : PlaybackEv) (s : PlaybackState)
    (ha : s.aborted = true) (hs : s.stopCalled = true) :
    (applyPlaybackEv e s).aborted = true ∧
      (applyPlaybackEv e s).stopCalled = true := by
  cases e
  · rw [applyPlaybackEv_abortFire, if_pos ha]
    exact ⟨ha, hs⟩
  · rw [applyPlaybackEv_pipeErr]
    split <;> simp [ha, hs]
  · rw [applyPlaybackEv_pipeFinish]
    split <;> simp [ha, hs]

theorem foldl_playback_keeps :
    ∀ (evs : List PlaybackEv) (s : PlaybackState),
      s.aborted = true → s.stopCalled = true →
      (evs.foldl (fun s e => applyPlaybackEv e s) s).aborted = true ∧
        (evs.foldl (fun s e => applyPlaybackEv e s) s).stopCalled = true := by
  intro evs
  induction evs with
  | nil => intro s ha hs; exact ⟨ha, hs⟩
  | cons e rest ih =>
      intro s ha hs
      obtain ⟨ha', hs'⟩ := applyPlaybackEv_keeps e s ha hs
      simpa [List.foldl_cons] using ih (applyPlaybackEv e s) ha' hs'

theorem foldl_playback_abort_fires :
    ∀ (evs : List PlaybackEv) (s : PlaybackState),
      PlaybackEv.abortFire ∈ evs → s.aborted = false → s.settled = false →
      (evs.foldl (fun s e => applyPlaybackEv e s) s).aborted = true ∧
        (evs.foldl (fun s e => applyPlaybackEv e s) s).stopCalled = true := by
  intro evs
  induction evs with
  | nil => intro s h; simp at h
  | cons e rest ih =>
      intro s hmem ha hsettled
      by_cases he : e = PlaybackEv.abortFire
      · subst he
        have ha' : (applyPlaybackEv PlaybackEv.abortFire s).aborted = true := by
          rw [applyPlaybackEv_abortFire, if_neg (by simp [ha])]
          simp [cleanupStep, hsettled]
        have hs' : (applyPlaybackEv PlaybackEv.abortFire s).stopCalled = true := by
          rw [applyPlaybackEv_abortFire, if_neg (by simp [ha])]
          simp [cleanupStep, hsettled]
        simpa [List.foldl_cons] using
          foldl_playback_keeps rest (applyPlaybackEv PlaybackEv.abortFire s) ha' hs'
      · have hmem' : PlaybackEv.abortFire ∈ rest := by
          rcases List.mem_cons.mp hmem with h | h
          · exact absurd h.symm he
          · exact h
        have hstate : (applyPlaybackEv e s).aborted = false ∧
            (applyPlaybackEv e s).settled = false := by
          cases e
          · exact absurd rfl he
          · rw [applyPlaybackEv_pipeErr]
            split <;> simp [ha, hsettled]
          · rw [applyPlaybackEv_pipeFinish]
            split <;> simp [ha, hsettled]
        simpa [List.foldl_cons] using
          ih (applyPlaybackEv e s) hmem' hstate.1 hstate.2

theorem awaitPipeDone_cons (e : PlaybackEv) (rest : List PlaybackEv)
    (s : PlaybackState) :
    awaitPipeDone (e :: rest) s =
      if s.pipeResult.isSome then (s, e :: rest)
      else awaitPipeDone rest (applyPlaybackEv e s) := rfl

theorem runPlayback_false (evs : List PlaybackEv) :
    runPlayback false evs = runPlaybackResume (awaitPipeDone evs playbackStart) := rfl

theorem runPlayback_true (evs : List PlaybackEv) :
    runPlayback true evs =
      (cleanupStep false
          { aborted := true, settled := false, pipeResult := none,
            playCalled := false, stopCalled := false, cleanupRuns := 0 },
        PlaybackOutcome.resolved true) := rfl

theorem runPlaybackResume_none (res : PlaybackState × List PlaybackEv)
    (h : res.1.pipeResult = none) :
    runPlaybackResume res = (res.1, PlaybackOutcome.pending) := by
  simp only [runPlaybackResume, h]

theorem runPlaybackResume_some (res : PlaybackState × List PlaybackEv)
    (err : Bool) (h : res.1.pipeResult = some err) :
    runPlaybackResume res =
      if err && !res.1.aborted then
        (cleanupStep false res.1, PlaybackOutcome.rejected)
      else if res.1.aborted then
        (cleanupStep false res.1, PlaybackOutcome.resolved true)
      else
        (cleanupStep false (res.2.foldl (fun s e => applyPlaybackEv e s) res.1),
          PlaybackOutcome.resolved
            ((res.2.foldl (fun s e => applyPlaybackEv e s) res.1)).aborted) := by
  simp only [runPlaybackResume, h]

theorem cleanupStep_inv (b : Bool) (s : PlaybackState) (h : PlaybackInv s)
    (hb : b = true → s.aborted = true) : PlaybackInv (cleanupStep b s) := by
  obtain ⟨h1, h2⟩ := h
  unfold cleanupStep PlaybackInv
  split
  · rename_i hset
    exact ⟨by rw [h1, if_pos hset], h2⟩
  · rename_i hset
    have hruns : s.cleanupRuns = 0 := by rw [h1, if_neg hset]
    constructor
    · simp [hruns]
    · intro hstop
      simp only [Bool.or_eq_true] at hstop
      rcases hstop with h | h
      · exact h2 h
      · exact hb h

theorem applyPlaybackEv_inv (e : PlaybackEv) (s : PlaybackState)
    (h : PlaybackInv s) : PlaybackInv (applyPlaybackEv e s) := by
  cases e
  · rw [applyPlaybackEv_abortFire]
    split
    · exact h
    · exact cleanupStep_inv true _ ⟨h.1, fun _ => rfl⟩ (fun _ => rfl)
  · rw [applyPlaybackEv_pipeErr]
    split
    · exact ⟨h.1, h.2⟩
    · exact h
  · rw [applyPlaybackEv_pipeFinish]
    split
    · exact ⟨h.1, h.2⟩
    · exact h

theorem awaitPipeDone_inv :
    ∀ (evs : List PlaybackEv) (s : PlaybackState), PlaybackInv s →
      PlaybackInv (awaitPipeDone evs s).1 := by
  intro evs
  induction evs with
  | nil => intro s h; exact h
  | cons e rest ih =>
      intro s h
      rw [awaitPipeDone_cons]
      split
      · exact h
      · exact ih _ (applyPlaybackEv_inv e s h)

theorem foldl_playback_inv :
    ∀ (evs : List PlaybackEv) (s : PlaybackState), PlaybackInv s →
      PlaybackInv (evs.foldl (fun s e => applyPlaybackEv e s) s) := by
  intro evs
  induction evs with
  | nil => intro s h; exact h
  | cons e rest ih =>
      intro s h
      simpa [List.foldl_cons] using ih _ (applyPlaybackEv_inv e s h)

theorem applyPlaybackEv_clean (e : PlaybackEv)
    (he : e ≠ PlaybackEv.abortFire) (s : PlaybackState)
    (h : PlaybackClean s) : PlaybackClean (applyPlaybackEv e s) := by
  cases e
  · exact absurd rfl he
  · rw [applyPlaybackEv_pipeErr]
    split
    · exact ⟨h.1, h.2⟩
    · exact h
  · rw [applyPlaybackEv_pipeFinish]
    split
    · exact ⟨h.1, h.2⟩
    · exact h

theorem awaitPipeDone_clean :
    ∀ (evs : List PlaybackEv) (s : PlaybackState),
      PlaybackEv.abortFire ∉ evs → PlaybackClean s →
      PlaybackClean (awaitPipeDone evs s).1 := by
  intro evs
  induction evs with
  | nil => intro s _ h; exact h
  | cons e rest ih =>
      intro s hmem h
      rw [awaitPipeDone_cons]
      split
      · exact h
      · refine ih _ (fun hr => hmem (List.mem_cons_of_mem _ hr)) ?_
        exact applyPlaybackEv_clean e
          (fun hc => hmem (hc ▸ List.mem_cons_self _ _)) s h

theorem awaitPipeDone_rest :
    ∀ (evs : List PlaybackEv) (s : PlaybackState) (x : PlaybackEv),
      x ∈ (awaitPipeDone evs s).2 → x ∈ evs := by
  intro evs
  induction evs with
  | nil => intro s x hx; exact absurd hx (by simp [awaitPipeDone])
  | cons e rest ih =>
      intro s x hx
      rw [awaitPipeDone_cons] at hx
      split at hx
      · exact hx
      · exact List.mem_cons_of_mem _ (ih _ x hx)

theorem foldl_playback_clean :
    ∀ (evs : List PlaybackEv) (s : PlaybackState),
      PlaybackEv.abortFire ∉ evs → PlaybackClean s →
      PlaybackClean (evs.foldl (fun s e => applyPlaybackEv e s) s) := by
  intro evs
  induction evs with
  | nil => intro s _ h; exact h
  | cons e rest ih =>
      intro s hmem h
      simp only [List.foldl_cons]
      refine ih _ (fun hr => hmem (List.mem_cons_of_mem _ hr)) ?_
      exact applyPlaybackEv_clean e
        (fun hc => hmem (hc ▸ List.mem_cons_self _ _)) s h

theorem cleanupStep_false_fields (s : PlaybackState) :
    (cleanupStep false s).stopCalled = s.stopCalled ∧
      (cleanupStep false s).aborted = s.aborted ∧
      (cleanupStep false s).playCalled = s.playCalled := by
  unfold cleanupStep
  split <;> simp

theorem applyPlaybackEv_play (e : PlaybackEv) (s : PlaybackState) :
    (applyPlaybackEv e s).playCalled = s.playCalled := by
  cases e
  · rw [applyPlaybackEv_abortFire]
    split
    · rfl
    · unfold cleanupStep
      split <;> rfl
  · rw [applyPlaybackEv_pipeErr]
    split <;> rfl
  · rw [applyPlaybackEv_pipeFinish]
    split <;> rfl

theorem foldl_playback_play :
    ∀ (evs : List PlaybackEv) (s : PlaybackState),
      (evs.foldl (fun s e => applyPlaybackEv e s) s).playCalled = s.playCalled := by
  intro evs
  induction evs with
  | nil => intro s; rfl
  | cons e rest ih =>
      intro s
      simp only [List.foldl_cons]
      rw [ih, applyPlaybackEv_play]

theorem abortPrecedesPipeError_mem :
    ∀ evs : List PlaybackEv, abortPrecedesPipeError evs = true →
      PlaybackEv.abortFire ∈ evs := by
  intro evs
  induction evs with
  | nil => intro h; exact absurd h (by simp [abortPrecedesPipeError])
  | cons e rest ih =>
      intro h
      cases e
      · exact List.mem_cons_self _ _
      · exact absurd h (by simp [abortPrecedesPipeError])
      · exact List.mem_cons_of_mem _ (ih h)

/-- C3 counterexample: a run in which the abort signal does fire — it is
among the events delivered to the call — but only after a pipeline error
settled the pipe; the call rejects with the error instead of resolving
`{aborted: true}`, so the claim as stated fails. -/
theorem playback_abort_counterexample :
    PlaybackEv.abortFire ∈ [PlaybackEv.pipeErr, PlaybackEv.abortFire] ∧
      (runPlayback false [PlaybackEv.pipeErr, PlaybackEv.abortFire]).2 =
        PlaybackOutcome.rejected := by decide

/-- C3 amended: if the abort is observed before any pipeline error (or the
signal was already aborted on entry), the call resolves `{aborted: true}`
and does not throw, pipe errors delivered after the abort notwithstanding;
when the abort fires after `play` was invoked the sink is stopped, and when
the signal was aborted before the call neither `play` nor `stop` is ever
invoked. -/
theorem playback_abort_observed_wins (a0 : Bool) (evs : List PlaybackEv)
    (h : a0 = true ∨ abortPrecedesPipeError evs = true) :
    (runPlayback a0 evs).2 = PlaybackOutcome.resolved true ∧
      (a0 = false → (runPlayback a0 evs).1.playCalled = true ∧
        (runPlayback a0 evs).1.stopCalled = true) ∧
      (a0 = true → (runPlayback a0 evs).1.playCalled = false ∧
        (runPlayback a0 evs).1.stopCalled = false) := by
  cases a0 with
  | true =>
      rw [runPlayback_true]
      exact ⟨rfl, fun hc => absurd hc (by simp), fun _ => ⟨rfl, rfl⟩⟩
  | false =>
      rcases h with h | h
      · exact absurd h (by simp)
      · have hmain : (runPlayback false evs).2 = PlaybackOutcome.resolved true ∧
            (runPlayback false evs).1.playCalled = true ∧
            (runPlayback false evs).1.stopCalled = true := by
          rcases evs with _ | ⟨e, rest⟩
          · exact absurd h (by simp [abortPrecedesPipeError])
          · cases e
            · -- abort first: it settles the pipe through cleanup
              have hstep : applyPlaybackEv PlaybackEv.abortFire playbackStart =
                  { aborted := true, settled := true, pipeResult := some false,
                    playCalled := true, stopCalled := true, cleanupRuns := 1 } := rfl
              rw [runPlayback_false, awaitPipeDone_cons,
                if_neg (by simp [playbackStart]), hstep,
                awaitPipeDone_of_isSome rest
                  { aborted := true, settled := true, pipeResult := some false,
                    playCalled := true, stopCalled := true, cleanupRuns := 1 }
                  rfl]
              exact ⟨rfl, rfl, rfl⟩
            · exact absurd h (by simp [abortPrecedesPipeError])
            · -- a finish settles the pipe first; the abort is delivered
              -- during the idle wait
              have hmem : PlaybackEv.abortFire ∈ rest :=
                abortPrecedesPipeError_mem rest h
              have hstep : applyPlaybackEv PlaybackEv.pipeFinish playbackStart =
                  { aborted := false, settled := false, pipeResult := some false,
                    playCalled := true, stopCalled := false, cleanupRuns := 0 } := rfl
              rw [runPlayback_false, awaitPipeDone_cons,
                if_neg (by simp [playbackStart]), hstep,
                awaitPipeDone_of_isSome rest
                  { aborted := false, settled := false, pipeResult := some false,
                    playCalled := true, stopCalled := false, cleanupRuns := 0 }
                  rfl,
                runPlaybackResume_some _ false rfl]
              rw [if_neg (by simp), if_neg (by simp)]
              obtain ⟨hab, hstop⟩ := foldl_playback_abort_fires rest
                { aborted := false, settled := false, pipeResult := some false,
                  playCalled := true, stopCalled := false, cleanupRuns := 0 }
                hmem rfl rfl
              obtain ⟨hs1, hs2, hs3⟩ := cleanupStep_false_fields
                (rest.foldl (fun s e => applyPlaybackEv e s)
                  { aborted := false, settled := false, pipeResult := some false,
                    playCalled := true, stopCalled := false, cleanupRuns := 0 })
              refine ⟨by rw [hab], ?_, ?_⟩
              · rw [hs3, foldl_playback_play]
              · rw [hs1, hstop]
        exact ⟨hmain.1, fun _ => ⟨hmain.2.1, hmain.2.2⟩,
          fun hc => absurd hc (by simp)⟩

/-- Witness for the amended C3 at a concrete schedule: abort first, then a
pipeline error. -/
theorem playback_abort_observed_wins_witness :
    (runPlayback false [PlaybackEv.abortFire, PlaybackEv.pipeErr]).2 =
        PlaybackOutcome.resolved true ∧
      (runPlayback false [PlaybackEv.abortFire, PlaybackEv.pipeErr]).1.playCalled
          = true ∧
      (runPlayback false [PlaybackEv.abortFire, PlaybackEv.pipeErr]).1.stopCalled
          = true := by
  obtain ⟨h1, h2, -⟩ := playback_abort_observed_wins false
    [PlaybackEv.abortFire, PlaybackEv.pipeErr] (Or.inr rfl)
  exact ⟨h1, (h2 rfl).1, (h2 rfl).2⟩

/-- C4: the teardown body runs at most once per invocation no matter which
of pipe error, abort and normal completion fire or in which order, and the
player is stopped only on the abort path — never on normal completion (a
resolved `{aborted: false}` run), and only when the abort signal actually
fired. -/
theorem playback_cleanup_idempotent (a0 : Bool) (evs : List PlaybackEv) :
    (runPlayback a0 evs).1.cleanupRuns ≤ 1 ∧
      ((runPlayback a0 evs).1.stopCalled = true →
        a0 = false ∧ PlaybackEv.abortFire ∈ evs) ∧
      ((runPlayback a0 evs).2 = PlaybackOutcome.resolved false →
        (runPlayback a0 evs).1.stopCalled = false) := by
  cases a0 with
  | true =>
      rw [runPlayback_true]
      exact ⟨by decide, fun hstop => absurd hstop (by decide),
        fun hout => absurd hout (by decide)⟩
  | false =>
      have hInvStart : PlaybackInv playbackStart := ⟨by decide, by decide⟩
      have hCleanStart : PlaybackClean playbackStart := ⟨rfl, rfl⟩
      rw [runPlayback_false]
      set res := awaitPipeDone evs playbackStart with hres
      have hInvRes : PlaybackInv res.1 := awaitPipeDone_inv evs _ hInvStart
      have hCleanRes : PlaybackEv.abortFire ∉ evs → PlaybackClean res.1 := by
        intro hmem
        exact awaitPipeDone_clean evs playbackStart hmem hCleanStart
      rcases hpr : res.1.pipeResult with _ | err
      · rw [runPlaybackResume_none _ hpr]
        refine ⟨?_, ?_, ?_⟩
        · have h1 := hInvRes.1
          rw [h1]
          split <;> norm_num
        · intro hstop
          refine ⟨rfl, ?_⟩
          by_contra hmem
          have : res.1.stopCalled = false := (hCleanRes hmem).2
          rw [this] at hstop
          exact absurd hstop (by simp)
        · intro hout
          exact absurd hout (by simp)
      · rw [runPlaybackResume_some _ err hpr]
        by_cases hb : (err && !res.1.aborted) = true
        · rw [if_pos hb]
          have hInvC := cleanupStep_inv false res.1 hInvRes (by simp)
          refine ⟨?_, ?_, ?_⟩
          · rw [hInvC.1]
            split <;> norm_num
          · intro hstop
            have hstop' : (cleanupStep false res.1).stopCalled = true := hstop
            rw [(cleanupStep_false_fields res.1).1] at hstop'
            refine ⟨rfl, ?_⟩
            by_contra hmem
            have : res.1.stopCalled = false := (hCleanRes hmem).2
            rw [this] at hstop'
            exact absurd hstop' (by simp)
          · intro hout
            exact absurd hout (by simp)
        · rw [if_neg hb]
          by_cases ha : res.1.aborted = true
          · rw [if_pos ha]
            have hInvC := cleanupStep_inv false res.1 hInvRes (by simp)
            refine ⟨?_, ?_, ?_⟩
            · rw [hInvC.1]
              split <;> norm_num
            · intro _
              refine ⟨rfl, ?_⟩
              by_contra hmem
              have : res.1.aborted = false := (hCleanRes hmem).1
              rw [this] at ha
              exact absurd ha (by simp)
            · intro hout
              exact absurd hout (by simp)
          · rw [if_neg ha]
            set s3 := res.2.foldl (fun s e => applyPlaybackEv e s) res.1 with hs3
            have hInv3 : PlaybackInv s3 := foldl_playback_inv res.2 res.1 hInvRes
            have hInvC := cleanupStep_inv false s3 hInv3 (by simp)
            refine ⟨?_, ?_, ?_⟩
            · rw [hInvC.1]
              split <;> norm_num
            · intro hstop
              have hstop' : (cleanupStep false s3).stopCalled = true := hstop
              rw [(cleanupStep_false_fields s3).1] at hstop'
              refine ⟨rfl, ?_⟩
              by_contra hmem
              have hnomem3 : PlaybackEv.abortFire ∉ res.2 := by
                intro hr
                exact hmem (awaitPipeDone_rest evs playbackStart _ hr)
              have hclean3 : PlaybackClean s3 :=
                foldl_playback_clean res.2 res.1 hnomem3 (hCleanRes hmem)
              rw [hclean3.2] at hstop'
              exact absurd hstop' (by simp)
            · intro hout
              have hout' : PlaybackOutcome.resolved s3.aborted =
                  PlaybackOutcome.resolved false := hout
              have hab3 : s3.aborted = false := by
                injection hout'
              have hstop3 : s3.stopCalled = false := by
                cases hcase : s3.stopCalled with
                | false => rfl
                | true =>
                    have := hInv3.2 hcase
                    rw [hab3] at this
                    exact absurd this (by simp)
              show (cleanupStep false s3).stopCalled = false
              rw [(cleanupStep_false_fields s3).1, hstop3]

/-- Witness for C4 at a concrete schedule in which the abort fires and the
player is stopped. -/
theorem playback_cleanup_idempotent_witness :
    (runPlayback false [PlaybackEv.abortFire]).1.cleanupRuns ≤ 1 ∧
      (false = false ∧ PlaybackEv.abortFire ∈ [PlaybackEv.abortFire]) := by
  obtain ⟨h1, h2, -⟩ := playback_cleanup_idempotent false [PlaybackEv.abortFire]
  exact ⟨h1, h2 (by decide)⟩

/-- C5 counterexample: a streaming attempt that times out with
`fallbackToBuffered = true` whose buffered fallback also fails — the result
is tagged `delivery = buffered` and carries the original failure, but it is
not a successful result, so the claim's unconditional "returns a successful
result" fails. -/
theorem tts_fallback_counterexample :
    (textToSpeechWithFallback
        { streamEnabled := true, supportsStreaming := true,
          fallbackToBuffered := true,
          attempt := StreamAttemptOutcome.failed "request timed out",
          bufferedOk := false }).1.delivery = Delivery.buffered ∧
      (textToSpeechWithFallback
          { streamEnabled := true, supportsStreaming := true,
            fallbackToBuffered := true,
            attempt := StreamAttemptOutcome.failed "request timed out",
            bufferedOk := false }).1.success = false :=
  ⟨rfl, rfl⟩

/-- C5 amended: when the streaming attempt times out or fails, a request
with `fallbackToBuffered = true` yields the buffered delivery's result
tagged `delivery = buffered`, carrying the original streaming failure in
`fallbackFromError` (successful exactly when the buffered delivery
succeeds); with `fallbackToBuffered = false` the controller returns a
`Failure` tagged `delivery = stream`. -/
theorem tts_fallback_behavior (req : FallbackRequest) (reason : String)
    (hs : req.streamEnabled = true) (hp : req.supportsStreaming = true)
    (ha : req.attempt = StreamAttemptOutcome.failed reason) :
    (req.fallbackToBuffered = true →
      (textToSpeechWithFallback req).1.delivery = Delivery.buffered ∧
        (textToSpeechWithFallback req).1.fallbackFromError = some reason ∧
        (textToSpeechWithFallback req).1.success = req.bufferedOk) ∧
      (req.fallbackToBuffered = false →
        (textToSpeechWithFallback req).1.success = false ∧
          (textToSpeechWithFallback req).1.delivery = Delivery.stream) := by
  constructor
  · intro hf
    simp [textToSpeechWithFallback, hs, hp, ha, hf]
  · intro hf
    simp [textToSpeechWithFallback, hs, hp, ha, hf]

/-- Witness for the amended C5 at the concrete timeout-fallback scenario of
the repository's test. -/
theorem tts_fallback_behavior_witness :
    (textToSpeechWithFallback
        { streamEnabled := true, supportsStreaming := true,
          fallbackToBuffered := true,
          attempt := StreamAttemptOutcome.failed "request timed out",
          bufferedOk := true }).1.delivery = Delivery.buffered ∧
      (textToSpeechWithFallback
          { streamEnabled := true, supportsStreaming := true,
            fallbackToBuffered := true,
            attempt := StreamAttemptOutcome.failed "request timed out",
            bufferedOk := true }).1.fallbackFromError = some "request timed out" ∧
      (textToSpeechWithFallback
          { streamEnabled := true, supportsStreaming := true,
            fallbackToBuffered := true,
            attempt := StreamAttemptOutcome.failed "request timed out",
            bufferedOk := true }).1.success = true := by
  obtain ⟨h1, -⟩ := tts_fallback_behavior
    { streamEnabled := true, supportsStreaming := true,
      fallbackToBuffered := true,
      attempt := StreamAttemptOutcome.failed "request timed out",
      bufferedOk := true } "request timed out" rfl rfl rfl
  exact h1 rfl

/-- C6 counterexample: a provider without streaming support requested with
`stream.enabled = true` but `fallbackToBuffered = false` is not delivered
via the buffered path — the repository's own test expects a `Failure`
tagged `delivery = stream`. -/
theorem tts_unsupported_counterexample :
    (textToSpeechWithFallback
        { streamEnabled := true, supportsStreaming := false,
          fallbackToBuffered := false,
          attempt := StreamAttemptOutcome.success,
          bufferedOk := true }).1.delivery = Delivery.stream ∧
      Delivery.stream ≠ Delivery.buffered ∧
      (textToSpeechWithFallback
          { streamEnabled := true, supportsStreaming := false,
            fallbackToBuffered := false,
            attempt := StreamAttemptOutcome.success,
            bufferedOk := true }).1.success = false :=
  ⟨rfl, by decide, rfl⟩

/-- C6 amended: a provider that does not support streaming never has a
timer race started for it, even with `stream.enabled = true`; with
`fallbackToBuffered` enabled the request is delivered via the buffered
path, and with fallback disabled the controller returns a `Failure` tagged
`delivery = stream`. -/
theorem tts_unsupported_provider (req : FallbackRequest)
    (hs : req.streamEnabled = true) (hp : req.supportsStreaming = false) :
    (textToSpeechWithFallback req).2 = 0 ∧
      (req.fallbackToBuffered = true →
        (textToSpeechWithFallback req).1.delivery = Delivery.buffered) ∧
      (req.fallbackToBuffered = false →
        (textToSpeechWithFallback req).1.success = false ∧
          (textToSpeechWithFallback req).1.delivery = Delivery.stream) := by
  refine ⟨?_, ?_, ?_⟩
  · unfold textToSpeechWithFallback
    rw [hs, hp]
    simp only [Bool.not_true, Bool.not_false, Bool.false_eq_true, if_false,
      if_true]
    split <;> rfl
  · intro hf
    simp [textToSpeechWithFallback, hs, hp, hf]
  · intro hf
    simp [textToSpeechWithFallback, hs, hp, hf]

/-- Witness for the amended C6: an unsupported provider with fallback
enabled is delivered buffered with zero races attempted. -/
theorem tts_unsupported_provider_witness :
    (textToSpeechWithFallback
        { streamEnabled := true, supportsStreaming := false,
          fallbackToBuffered := true,
          attempt := StreamAttemptOutcome.success,
          bufferedOk := true }).2 = 0 ∧
      (textToSpeechWithFallback
          { streamEnabled := true, supportsStreaming := false,
            fallbackToBuffered := true,
            attempt := StreamAttemptOutcome.success,
            bufferedOk := true }).1.delivery = Delivery.buffered := by
  obtain ⟨h1, h2, -⟩ := tts_unsupported_provider
    { streamEnabled := true, supportsStreaming := false,
      fallbackToBuffered := true,
      attempt := StreamAttemptOutcome.success,
      bufferedOk := true } rfl rfl
  exact ⟨h1, h2 rfl⟩
